import Mathlib

/-!
Shallow embedding of the crisphooks hook engine (src/crisphooks.js) and
verification of its specification claims.

The embedding models JS values with an explicit truthiness predicate, a
registered handler's single-invocation behaviour as a `HandlerSpec`
(return a plain value, throw synchronously, or return a promise that
later resolves or rejects), and each triggering operation as a pure
function producing an outcome together with a trace of handler and
error-handler invocations.
-/

namespace Crisphooks

/-- A JavaScript value, as far as the hook engine observes it: the engine
only branches on truthiness (`if (error)`, `if (triggerWithError)`), so we
keep a small universe with an explicit truthiness function.  `errObj msg`
stands for `new Error(msg)`. -/
inductive JSVal where
  | undef
  | null
  | bool (b : Bool)
  | num (n : Int)
  | str (s : String)
  | errObj (msg : String)
  | obj (id : Nat)
deriving Repr, DecidableEq

/-- JS truthiness of a value. -/
def truthy : JSVal → Bool
  | .undef => false
  | .null => false
  | .bool b => b
  | .num n => n != 0
  | .str s => s != ""
  | .errObj _ => true
  | .obj _ => true

/-- Truthiness of an optional value (an absent argument is `undefined`). -/
def truthyOpt : Option JSVal → Bool
  | some v => truthy v
  | none => false

/-- `new Error()` as substituted by `triggerError` / `triggerErrorSync`
(src/crisphooks.js lines 250, 277, 384). -/
def jsNewError : JSVal := .errObj ""

/-- `new Error('Error running hook')` substituted for a falsy promise
rejection value (src/crisphooks.js line 184). -/
def hookRunError : JSVal := .errObj "Error running hook"

/-- The TypeError JS raises when a property of `undefined` is read; only
relevant for (unreachable) out-of-bounds cursor positions. -/
def jsTypeError : JSVal := .errObj "TypeError"

/-- Single-invocation behaviour of a registered handler (or error
handler): return a plain value, throw synchronously, or return a promise
that resolves or rejects. -/
inductive HandlerSpec where
  | retVal (v : JSVal)
  | throwVal (e : JSVal)
  | promiseOk (v : JSVal)
  | promiseErr (e : JSVal)
deriving Repr, DecidableEq

/-- A handler behaviour that completes successfully (synchronously or via
a resolving promise). -/
def HandlerSpec.isSuccB : HandlerSpec → Bool
  | .retVal _ => true
  | .promiseOk _ => true
  | _ => false

/-- Result value of a successfully completing handler. -/
def HandlerSpec.succVal : HandlerSpec → JSVal
  | .retVal v => v
  | .promiseOk v => v
  | .throwVal e => e
  | .promiseErr e => e

/-- Value of a handler that returns a plain (non-promise) value. -/
def HandlerSpec.plainVal : HandlerSpec → Option JSVal
  | .retVal v => some v
  | _ => none

/-- Rejection value of a handler that returns a rejecting promise. -/
def HandlerSpec.rejectVal : HandlerSpec → Option JSVal
  | .promiseErr e => some e
  | _ => none

/-- A handler behaviour that throws synchronously. -/
def HandlerSpec.isThrowB : HandlerSpec → Bool
  | .throwVal _ => true
  | _ => false

/-- `failsWith h e` holds when invoking a handler with behaviour `h`
makes the forward trigger fail, and `e` is the error value the unwinder
then carries: a synchronous throw of a truthy value propagates as is
(a falsy synchronous throw is silently ignored by `runNextHook`), and a
promise rejection propagates its value unless falsy, in which case
`new Error('Error running hook')` is substituted. -/
def failsWith : HandlerSpec → JSVal → Prop
  | .throwVal e0, e => truthy e0 = true ∧ e = e0
  | .promiseErr e0, e => e = (if truthy e0 then e0 else hookRunError)
  | _, _ => False

instance (h : HandlerSpec) (e : JSVal) : Decidable (failsWith h e) := by
  cases h <;> simp only [failsWith] <;> infer_instance

/-- One registered hook entry (src/crisphooks.js lines 39-44). -/
structure Hook where
  priority : Int
  hookNumber : Nat
  handler : HandlerSpec
  errorHandler : Option HandlerSpec
deriving Repr, DecidableEq

/-- An error handler behaviour that lets the unwind continue: absent,
plain return, or a resolving promise. A throwing or rejecting error
handler aborts the unwind. -/
def ehCleanB (h : Hook) : Bool :=
  match h.errorHandler with
  | none => true
  | some (.retVal _) => true
  | some (.promiseOk _) => true
  | some _ => false

/-- The total order realised by the sort comparator of `_sortHooks`
(src/crisphooks.js lines 136-140): ascending priority, ties by ascending
hookNumber. -/
def hookLE (a b : Hook) : Prop :=
  a.priority < b.priority ∨ (a.priority = b.priority ∧ a.hookNumber ≤ b.hookNumber)

instance : DecidableRel hookLE := fun a b => by
  unfold hookLE; infer_instance

instance : IsTotal Hook hookLE where
  total a b := by
    unfold hookLE
    rcases lt_trichotomy a.priority b.priority with h | h | h
    · exact Or.inl (Or.inl h)
    · rcases Nat.le_total a.hookNumber b.hookNumber with h2 | h2
      · exact Or.inl (Or.inr ⟨h, h2⟩)
      · exact Or.inr (Or.inr ⟨h.symm, h2⟩)
    · exact Or.inr (Or.inl h)

instance : IsTrans Hook hookLE where
  trans a b c := by
    unfold hookLE
    rintro (h1 | ⟨h1, h1n⟩) (h2 | ⟨h2, h2n⟩)
    · exact Or.inl (h1.trans h2)
    · exact Or.inl (h2 ▸ h1)
    · exact Or.inl (h1 ▸ h2)
    · exact Or.inr ⟨h1.trans h2, h1n.trans h2n⟩

/-- The sorted hook order produced by `_sortHooks`.  The JS comparator is
a total order (ties fully resolved by `hookNumber`), so the in-place
`Array.prototype.sort` produces the unique permutation sorted by
`hookLE`; we realise it with insertion sort. -/
def sortHookList (l : List Hook) : List Hook := l.insertionSort hookLE

/-- An observable step of a triggering operation: a handler invocation or
an error-handler invocation (with the error value it received). -/
inductive Event where
  | ranHandler (hookNumber : Nat)
  | ranErrorHandler (hookNumber : Nat) (error : JSVal)
deriving Repr, DecidableEq

/-- Value a promise settles with: `undefined` (a bare `resolve()`), a
plain value, or a results array. -/
inductive PResult where
  | undef
  | val (v : JSVal)
  | list (rs : List JSVal)
deriving Repr, DecidableEq

/-- Outcome of a promise-returning operation.  `hung e` models
`catchPromiseError e`: the promise never settles and `e` escapes as a
global uncaught error via `setImmediate`. -/
inductive POutcome where
  | resolved (r : PResult)
  | rejected (e : JSVal)
  | hung (e : JSVal)
deriving Repr, DecidableEq

/-- Per-name hook storage (src/crisphooks.js lines 32-36). -/
structure HookSet where
  hooks : List Hook
  sorted : Bool
  hookCtr : Nat
deriving Repr, DecidableEq

/-- The hook container: the `_hooks` dictionary keyed by name. -/
structure CrispHooks where
  _hooks : List (String × HookSet)
deriving Repr, DecidableEq

def newCrispHooks : CrispHooks := ⟨[]⟩

def getHookSet (self : CrispHooks) (name : String) : Option HookSet :=
  (self._hooks.find? (fun p => p.1 == name)).map (·.2)

def setHookSet (self : CrispHooks) (name : String) (ns : HookSet) : CrispHooks :=
  if self._hooks.any (fun p => p.1 == name) then
    ⟨self._hooks.map (fun p => if p.1 == name then (name, ns) else p)⟩
  else
    ⟨self._hooks ++ [(name, ns)]⟩

/-- A registration request: the arguments of `_addHook`
(src/crisphooks.js lines 20-50). -/
structure Reg where
  name : String
  priority : Int
  handler : HandlerSpec
  errorHandler : Option HandlerSpec
deriving Repr, DecidableEq

/-- `_addHook` (src/crisphooks.js lines 20-50): create the `HookSet` on
first use, append an entry numbered by the per-set counter, and mark the
set unsorted whenever it then holds more than one entry. -/
def _addHook (self : CrispHooks) (r : Reg) : CrispHooks :=
  let ns := (getHookSet self r.name).getD ⟨[], true, 0⟩
  let hooks1 := ns.hooks ++ [⟨r.priority, ns.hookCtr, r.handler, r.errorHandler⟩]
  let sorted1 := if hooks1.length > 1 then false else ns.sorted
  setHookSet self r.name ⟨hooks1, sorted1, ns.hookCtr + 1⟩

/-- A container built by a sequence of registrations on a fresh
`CrispHooks` instance. -/
def applyRegs (regs : List Reg) : CrispHooks :=
  regs.foldl _addHook newCrispHooks

/-- The entries registered under a name (empty when none). -/
def hooksOf (self : CrispHooks) (name : String) : List Hook :=
  ((getHookSet self name).map (·.hooks)).getD []

/-- `_sortHooks` (src/crisphooks.js lines 133-142): sort the stored array
in place unless it is short or already marked sorted. -/
def _sortHooks (self : CrispHooks) (name : String) : CrispHooks :=
  match getHookSet self name with
  | none => self
  | some ns =>
    if ns.hooks.length ≤ 1 || ns.sorted then self
    else setHookSet self name ⟨sortHookList ns.hooks, true, ns.hookCtr⟩

/-- `runNextErrorHook` of `_trigger` (src/crisphooks.js lines 195-220),
with `n = curHookNum + 1` so that `n = 0` is the `curHookNum < 0`
termination case.  `preset` is the truthiness of `triggerWithError`.  An
error handler that throws or rejects reaches `catchPromiseError`, so the
trigger promise never settles (`hung`). -/
def runNextErrorHook (arr : List Hook) (preset : Bool) :
    Nat → JSVal → List Event → POutcome × List Event
  | 0, error, tr =>
    (if preset then .resolved .undef else .rejected error, tr)
  | n + 1, error, tr =>
    match arr.get? n with
    | none => (.hung jsTypeError, tr)
    | some hook =>
      match hook.errorHandler with
      | none => runNextErrorHook arr preset n error tr
      | some eh =>
        let tr1 := tr ++ [.ranErrorHandler hook.hookNumber error]
        match eh with
        | .retVal _ => runNextErrorHook arr preset n error tr1
        | .promiseOk _ => runNextErrorHook arr preset n error tr1
        | .throwVal e2 => (.hung e2, tr1)
        | .promiseErr e2 => (.hung e2, tr1)

/-- `runNextHook` of `_trigger` (src/crisphooks.js lines 168-193) in the
forward (non-preset) direction, running the snapshot `arr` from index
`i`.  A synchronous throw is caught and fed back into `runNextHook`,
where only a truthy value starts the unwind (`curHookNum -= 2`, i.e. the
unwinder starts at `i - 1`, so the `n` argument below is `i`); a falsy
synchronous throw simply continues with the next hook and records no
result.  A promise rejection always unwinds, substituting
`new Error('Error running hook')` for a falsy rejection value.

The `gas` parameter makes the index recursion structural: every step
advances `i` by one, so starting with `gas = arr.length` (as `_trigger`
does) keeps `arr.length ≤ gas + i` and the `gas = 0` fallback
unreachable. -/
def runNextHook (arr : List Hook) :
    Nat → Nat → List JSVal → List Event → POutcome × List Event
  | gas, i, results, tr =>
    if h : i < arr.length then
      match gas with
      | 0 => (.hung jsTypeError, tr)
      | gas + 1 =>
        let hook := arr.get ⟨i, h⟩
        let tr1 := tr ++ [.ranHandler hook.hookNumber]
        match hook.handler with
        | .retVal v => runNextHook arr gas (i + 1) (results ++ [v]) tr1
        | .promiseOk v => runNextHook arr gas (i + 1) (results ++ [v]) tr1
        | .throwVal e =>
          if truthy e then runNextErrorHook arr false i e tr1
          else runNextHook arr gas (i + 1) results tr1
        | .promiseErr e =>
          runNextErrorHook arr false i (if truthy e then e else hookRunError) tr1
    else
      (.resolved (.list results), tr)

/-- Result of one triggering operation: the (possibly mutated, because of
in-place sorting) container, the settled outcome, and the invocation
trace. -/
structure Run where
  self : CrispHooks
  out : POutcome
  trace : List Event
deriving Repr, DecidableEq

/-- `_trigger` (src/crisphooks.js lines 144-224): resolve immediately
with `[]` when the name has no hook set, otherwise sort, snapshot
(`hooks.slice(0)`), and either unwind from the last index (truthy
`triggerWithError`) or run forward from index 0. -/
def _trigger (self : CrispHooks) (name : String) (twe : Option JSVal) : Run :=
  match getHookSet self name with
  | none => ⟨self, .resolved (.list []), []⟩
  | some _ =>
    let self1 := _sortHooks self name
    let arr := hooksOf self1 name
    if truthyOpt twe then
      let r := runNextErrorHook arr true arr.length (twe.getD jsNewError) []
      ⟨self1, r.1, r.2⟩
    else
      let r := runNextHook arr arr.length 0 [] []
      ⟨self1, r.1, r.2⟩

/-- `trigger` (src/crisphooks.js lines 234-236). -/
def trigger (self : CrispHooks) (name : String) : Run :=
  _trigger self name none

/-- `triggerError` (src/crisphooks.js lines 246-252): substitute
`new Error()` when the error argument is omitted or falsy, then run only
the error chain. -/
def triggerError (self : CrispHooks) (name : String) (errArg : Option JSVal) : Run :=
  let error := match errArg with
    | some e => if truthy e then e else jsNewError
    | none => jsNewError
  _trigger self name (some error)

/-! ### The synchronous variant `_triggerSync` -/

/-- Mutable state of one `_triggerSync` run: the shared cursor
`curHookNum`, the accumulated results, the invocation trace, and the
rejection values that escape as global uncaught errors via
`catchPromiseError` (promises are not awaited by the sync variant). -/
structure SyncSt where
  cur : Int
  results : List JSVal
  trace : List Event
  escapes : List JSVal
deriving Repr, DecidableEq

/-- Which of the two mutually recursive closures of `_triggerSync` is
being entered: `nh err` is `runNextHook(err)` and `neh error` is
`runNextErrorHook(error)`. -/
inductive SyncCall where
  | nh (err : Option JSVal)
  | neh (error : JSVal)
deriving Repr, DecidableEq

/-- `runNextHook` / `runNextErrorHook` of `_triggerSync`
(src/crisphooks.js lines 309-353), fuelled because the JS control flow
is genuinely reentrant: the recursive `runNextHook()` call sits inside
the `try` block, so an exception thrown while unwinding propagates into
the `catch` of every enclosing frame, each of which performs
`curHookNum -= 2` and re-enters `runNextHook`.  The encoding returns
`none` on fuel exhaustion, `some (st, none)` on normal return and
`some (st, some ex)` when the frame throws `ex`. -/
def syncRun (arr : List Hook) (preset : Bool) :
    Nat → SyncCall → SyncSt → Option (SyncSt × Option JSVal)
  | 0, _, _ => none
  | fuel + 1, .nh err, st =>
    if truthyOpt err then
      syncRun arr preset fuel (.neh (err.getD jsNewError)) { st with cur := st.cur - 2 }
    else if st.cur ≥ (arr.length : Int) then
      some (st, none)
    else
      let idx := st.cur
      let st1 := { st with cur := st.cur + 1 }
      match (if 0 ≤ idx then arr.get? idx.toNat else none) with
      | none =>
        -- hookArray[curHookNum] is undefined; reading `.handler` throws
        -- a TypeError inside the try block (unreachable in actual runs)
        syncRun arr preset fuel (.nh (some jsTypeError)) st1
      | some hook =>
        let st2 := { st1 with trace := st1.trace ++ [.ranHandler hook.hookNumber] }
        match hook.handler with
        | .throwVal e => syncRun arr preset fuel (.nh (some e)) st2
        | hs =>
          let st3 :=
            match hs with
            | .retVal v => { st2 with results := st2.results ++ [v] }
            | .promiseErr e2 => { st2 with escapes := st2.escapes ++ [e2] }
            | _ => st2
          match syncRun arr preset fuel (.nh none) st3 with
          | none => none
          | some (st4, some ex) => syncRun arr preset fuel (.nh (some ex)) st4
          | some r => some r
  | fuel + 1, .neh error, st =>
    if st.cur < 0 then
      if preset then some (st, none) else some (st, some error)
    else
      match arr.get? st.cur.toNat with
      | none => some (st, some jsTypeError)
      | some hook =>
        let st1 := { st with cur := st.cur - 1 }
        match hook.errorHandler with
        | none => syncRun arr preset fuel (.neh error) st1
        | some eh =>
          let st2 := { st1 with trace := st1.trace ++ [.ranErrorHandler hook.hookNumber error] }
          match eh with
          | .throwVal e2 => some (st2, some e2)
          | .promiseErr e2 =>
            syncRun arr preset fuel (.neh error) { st2 with escapes := st2.escapes ++ [e2] }
          | _ => syncRun arr preset fuel (.neh error) st2

/-- Outcome of a `_triggerSync` run.  `fuelOut` marks fuel exhaustion of
the encoding (never reached in any run considered by the theorems). -/
inductive SyncOutcome where
  | returned (results : List JSVal)
  | returnedVoid
  | thrown (e : JSVal)
  | fuelOut
deriving Repr, DecidableEq

/-- Result of a `_triggerSync` invocation. -/
structure SyncRun where
  self : CrispHooks
  out : SyncOutcome
  trace : List Event
  escapes : List JSVal
deriving Repr, DecidableEq

/-- Fuel bound used by the `_triggerSync` encoding. -/
def syncFuel (arr : List Hook) : Nat := 4 * arr.length + 8

/-- `_triggerSync` (src/crisphooks.js lines 285-355): return `[]` when
the name has no hook set; otherwise sort, snapshot, and either unwind
from the last index (returning `undefined`) or run the hooks forward and
return the collected results. -/
def _triggerSync (self : CrispHooks) (name : String) (twe : Option JSVal) : SyncRun :=
  match getHookSet self name with
  | none => ⟨self, .returned [], [], []⟩
  | some _ =>
    let self1 := _sortHooks self name
    let arr := hooksOf self1 name
    if truthyOpt twe then
      match syncRun arr true (syncFuel arr) (.neh (twe.getD jsNewError))
          ⟨(arr.length : Int) - 1, [], [], []⟩ with
      | none => ⟨self1, .fuelOut, [], []⟩
      | some (st, some ex) => ⟨self1, .thrown ex, st.trace, st.escapes⟩
      | some (st, none) => ⟨self1, .returnedVoid, st.trace, st.escapes⟩
    else
      match syncRun arr false (syncFuel arr) (.nh none) ⟨0, [], [], []⟩ with
      | none => ⟨self1, .fuelOut, [], []⟩
      | some (st, some ex) => ⟨self1, .thrown ex, st.trace, st.escapes⟩
      | some (st, none) => ⟨self1, .returned st.results, st.trace, st.escapes⟩

/-- `triggerSync` (src/crisphooks.js lines 369-371). -/
def triggerSync (self : CrispHooks) (name : String) : SyncRun :=
  _triggerSync self name none

/-- `triggerErrorSync` (src/crisphooks.js lines 380-386): substitute
`new Error()` for an omitted or falsy error argument. -/
def triggerErrorSync (self : CrispHooks) (name : String) (errArg : Option JSVal) : SyncRun :=
  let error := match errArg with
    | some e => if truthy e then e else jsNewError
    | none => jsNewError
  _triggerSync self name (some error)

/-! ### `triggerWrap` -/

/-- Outcome of invoking the wrapped body function: success with its
result value, or failure with the thrown / rejected value (no falsiness
substitution happens on this path). -/
def bodyOutcome : HandlerSpec → Except JSVal JSVal
  | .retVal v => .ok v
  | .promiseOk v => .ok v
  | .throwVal e => .error e
  | .promiseErr e => .error e

/-- `cleanupOnError` of `triggerWrap` (src/crisphooks.js lines 413-427).
When the main-stage hooks have run (`ranNeutral`) the cleanup chain for
`name` and then `"pre-" + name` is returned and ends in a rejection with
the original error.  When only the pre-stage ran, the source *does not
return* the cleanup chain: the cleanup for `"pre-" + name` is started
detached and `cleanupOnError` returns `undefined`, so the wrap resolves
with `undefined`. -/
def cleanupOnError (self : CrispHooks) (name : String) (ranPre ranNeutral : Bool)
    (error : JSVal) : Run :=
  if ranNeutral then
    let c1 := triggerError self name (some error)
    match c1.out with
    | .resolved _ =>
      let c2 := triggerError c1.self ("pre-" ++ name) (some error)
      match c2.out with
      | .resolved _ => ⟨c2.self, .rejected error, c1.trace ++ c2.trace⟩
      | .rejected e2 => ⟨c2.self, .rejected e2, c1.trace ++ c2.trace⟩
      | .hung e2 => ⟨c2.self, .hung e2, c1.trace ++ c2.trace⟩
    | .rejected e2 => ⟨c1.self, .rejected e2, c1.trace⟩
    | .hung e2 => ⟨c1.self, .hung e2, c1.trace⟩
  else if ranPre then
    let c1 := triggerError self ("pre-" ++ name) (some error)
    ⟨c1.self, .resolved .undef, c1.trace⟩
  else
    ⟨self, .rejected error, []⟩

/-- `triggerWrap` (src/crisphooks.js lines 399-440): trigger
`"pre-" + name`, then `name`, then invoke the body, then trigger
`"post-" + name`; any failure flows into `cleanupOnError` with the flags
recording which stages had completed.  On full success the final `then`
returns `runHooks('post-' + name)`, so the wrap resolves with the
post-stage trigger's result. -/
def triggerWrap (self : CrispHooks) (name : String) (fn : HandlerSpec) : Run :=
  let r1 := trigger self ("pre-" ++ name)
  match r1.out with
  | .hung e => ⟨r1.self, .hung e, r1.trace⟩
  | .rejected e =>
    let c := cleanupOnError r1.self name false false e
    ⟨c.self, c.out, r1.trace ++ c.trace⟩
  | .resolved _ =>
    let r2 := trigger r1.self name
    match r2.out with
    | .hung e => ⟨r2.self, .hung e, r1.trace ++ r2.trace⟩
    | .rejected e =>
      let c := cleanupOnError r2.self name true false e
      ⟨c.self, c.out, r1.trace ++ r2.trace ++ c.trace⟩
    | .resolved _ =>
      match bodyOutcome fn with
      | .error e =>
        let c := cleanupOnError r2.self name true true e
        ⟨c.self, c.out, r1.trace ++ r2.trace ++ c.trace⟩
      | .ok _ =>
        let r3 := trigger r2.self ("post-" ++ name)
        match r3.out with
        | .hung e => ⟨r3.self, .hung e, r1.trace ++ r2.trace ++ r3.trace⟩
        | .rejected e =>
          let c := cleanupOnError r3.self name true true e
          ⟨c.self, c.out, r1.trace ++ r2.trace ++ r3.trace ++ c.trace⟩
        | .resolved res => ⟨r3.self, .resolved res, r1.trace ++ r2.trace ++ r3.trace⟩

/-! ### A small-step rendering of `_trigger` for the snapshot invariant

`_trigger` copies the hook array (`nameHooks.hooks.slice(0)`, line 154)
before running anything, and the running closures (`runNextHook`,
`runNextErrorHook`) reference only that copy.  To state that mid-flight
registrations cannot affect a running trigger we replay `_trigger` as a
step machine over an `InFlight` record holding exactly the data those
closures close over, paired with the container on which registrations
keep arriving. -/

/-- Position of the cursor inside an in-flight `_trigger`. -/
inductive FwdMode where
  | runF (i : Nat) (results : List JSVal)
  | runE (n : Nat) (error : JSVal)
  | finished (out : POutcome)
deriving Repr, DecidableEq

/-- The data an in-flight `_trigger` actually references: its snapshot
of the hook array, the truthiness of `triggerWithError`, its cursor and
its accumulated trace. -/
structure InFlight where
  snapshot : List Hook
  preset : Bool
  mode : FwdMode
  trace : List Event
deriving Repr, DecidableEq

/-- One cursor step of an in-flight `_trigger`: a single unfolding of
`runNextHook` / `runNextErrorHook` over the snapshot. -/
def stepFl (fl : InFlight) : InFlight :=
  match fl.mode with
  | .finished _ => fl
  | .runF i results =>
    if h : i < fl.snapshot.length then
      let hook := fl.snapshot.get ⟨i, h⟩
      let tr1 := fl.trace ++ [.ranHandler hook.hookNumber]
      match hook.handler with
      | .retVal v => { fl with mode := .runF (i + 1) (results ++ [v]), trace := tr1 }
      | .promiseOk v => { fl with mode := .runF (i + 1) (results ++ [v]), trace := tr1 }
      | .throwVal e =>
        if truthy e then { fl with mode := .runE i e, trace := tr1 }
        else { fl with mode := .runF (i + 1) results, trace := tr1 }
      | .promiseErr e =>
        { fl with mode := .runE i (if truthy e then e else hookRunError), trace := tr1 }
    else
      { fl with mode := .finished (.resolved (.list results)) }
  | .runE n error =>
    match n with
    | 0 =>
      { fl with mode := .finished (if fl.preset then .resolved .undef else .rejected error) }
    | m + 1 =>
      match fl.snapshot.get? m with
      | none => { fl with mode := .finished (.hung jsTypeError) }
      | some hook =>
        match hook.errorHandler with
        | none => { fl with mode := .runE m error }
        | some eh =>
          let tr1 := fl.trace ++ [.ranErrorHandler hook.hookNumber error]
          match eh with
          | .retVal _ => { fl with mode := .runE m error, trace := tr1 }
          | .promiseOk _ => { fl with mode := .runE m error, trace := tr1 }
          | .throwVal e2 => { fl with mode := .finished (.hung e2), trace := tr1 }
          | .promiseErr e2 => { fl with mode := .finished (.hung e2), trace := tr1 }

/-- Iterate `stepFl`. -/
def runFl : Nat → InFlight → InFlight
  | 0, fl => fl
  | k + 1, fl => runFl k (stepFl fl)

/-- Joint state of the container and one in-flight trigger. -/
structure TState where
  container : CrispHooks
  fl : InFlight
deriving Repr, DecidableEq

/-- The prologue of `_trigger` (src/crisphooks.js lines 148-166): resolve
immediately when the name is unknown, otherwise sort the stored array,
take the snapshot copy and position the cursor. -/
def startTrigger (self : CrispHooks) (name : String) (twe : Option JSVal) : TState :=
  match getHookSet self name with
  | none => ⟨self, ⟨[], truthyOpt twe, .finished (.resolved (.list [])), []⟩⟩
  | some _ =>
    let self1 := _sortHooks self name
    let arr := hooksOf self1 name
    if truthyOpt twe then
      ⟨self1, ⟨arr, true, .runE arr.length (twe.getD jsNewError), []⟩⟩
    else
      ⟨self1, ⟨arr, false, .runF 0 [], []⟩⟩

/-- A scheduler item: `none` advances the in-flight trigger by one cursor
step, `some r` performs a registration on the container while the
trigger is in flight. -/
def runSched : List (Option Reg) → TState → TState
  | [], s => s
  | none :: rest, s => runSched rest ⟨s.container, stepFl s.fl⟩
  | some r :: rest, s => runSched rest ⟨_addHook s.container r, s.fl⟩

/-! ### Concrete containers used by the claim witnesses and counterexamples -/

/-- Concrete container for the C1 witness: three successful handlers
registered under "x" with priorities 2, 3, 1. -/
def w1self : CrispHooks := applyRegs
  [⟨"x", 2, .promiseOk (.str "A"), none⟩,
   ⟨"x", 3, .promiseOk (.str "B"), none⟩,
   ⟨"x", 1, .promiseOk (.str "C"), none⟩]

/-- Concrete container refuting C2 as stated: the handler at snapshot
index 1 throws the falsy value `null`; `runNextHook` then treats the
caught value as "no error", so no unwind happens at all, the handler at
index 2 still runs, and the trigger resolves. -/
def cex2self : CrispHooks := applyRegs
  [⟨"x", 0, .retVal (.num 1), some (.retVal .undef)⟩,
   ⟨"x", 0, .throwVal .null, some (.retVal .undef)⟩,
   ⟨"x", 0, .retVal (.num 3), none⟩]

/-- Concrete container for the C2 witness: handlers A, B at indices 0, 1
succeed with clean error handlers, the handler at index 2 rejects with
`123`; cleanup must visit index 1 then index 0. -/
def w2self : CrispHooks := applyRegs
  [⟨"x", 1, .retVal (.str "A"), some (.retVal .undef)⟩,
   ⟨"x", 2, .retVal (.str "B"), some (.retVal .undef)⟩,
   ⟨"x", 3, .promiseErr (.num 123), some (.retVal .undef)⟩]

/-- Concrete container refuting C5 as stated: the only handler's
deferred value rejects with the falsy value `0`. -/
def cex5self : CrispHooks := applyRegs [⟨"x", 0, .promiseErr (.num 0), none⟩]

def w6self : CrispHooks := applyRegs
  [⟨"x", 1, .retVal (.str "A"), some (.retVal .undef)⟩,
   ⟨"x", 2, .retVal (.str "B"), none⟩,
   ⟨"x", 3, .retVal (.str "C"), some (.promiseOk .undef)⟩]

def w10self : CrispHooks := applyRegs
  [⟨"x", 0, .retVal .undef, some (.retVal .undef)⟩,
   ⟨"x", 0, .retVal .undef, some (.retVal .undef)⟩]

def w9self : CrispHooks := applyRegs
  [⟨"x", 0, .retVal (.str "A"), none⟩,
   ⟨"x", 0, .promiseOk (.str "B"), none⟩,
   ⟨"x", 0, .retVal (.str "C"), none⟩,
   ⟨"x", 0, .promiseErr (.num 7), none⟩]

/-- Container for the C3 counterexample: one pre-stage hook with a clean
error handler, and a middle-stage hook whose handler throws `9`. -/
def cex3self : CrispHooks := applyRegs
  [⟨"pre-foo", 0, .retVal (.num 1), some (.retVal .undef)⟩,
   ⟨"foo", 0, .throwVal (.num 9), none⟩]

/-- Container for the C7 witness, mirroring the repository's own
triggerWrap error test: pre-foo has hooks A, B; foo has hooks C, D;
post-foo has hook F and a hook G whose handler rejects with 123; each
hook carries a clean error handler. -/
def w7self : CrispHooks := applyRegs
  [⟨"pre-foo", 0, .retVal .undef, some (.promiseOk (.str "A"))⟩,
   ⟨"pre-foo", 0, .retVal .undef, some (.promiseOk (.str "B"))⟩,
   ⟨"foo", 0, .retVal .undef, some (.promiseOk (.str "C"))⟩,
   ⟨"foo", 0, .retVal .undef, some (.promiseOk (.str "D"))⟩,
   ⟨"post-foo", 0, .retVal .undef, some (.promiseOk (.str "F"))⟩,
   ⟨"post-foo", 0, .promiseErr (.num 123), some (.promiseOk (.str "G"))⟩]

def w8self : CrispHooks := applyRegs
  [⟨"x", 1, .retVal (.num 1), some (.retVal .undef)⟩,
   ⟨"x", 2, .promiseOk (.num 2), none⟩]

/-- A schedule interleaving mid-flight registrations (under the same
name) with the trigger's cursor steps. -/
def w8sched : List (Option Reg) :=
  [some ⟨"x", 0, .retVal (.num 99), none⟩, none, none,
   some ⟨"x", 5, .throwVal (.num 13), none⟩, none, none, none,
   some ⟨"x", 1, .promiseErr (.num 7), none⟩, none, none, none, none, none, none]

/-! ### Container invariants

States reachable by registration sequences satisfy: the per-set counter
equals the number of entries, entry `i` carries `hookNumber = i` (so
`hookNumber` order is registration order), and a set marked `sorted`
really is sorted by the comparator order. -/

def WFSet (ns : HookSet) : Prop :=
  ns.hookCtr = ns.hooks.length ∧
  (∀ i (h : i < ns.hooks.length), (ns.hooks.get ⟨i, h⟩).hookNumber = i) ∧
  (ns.sorted = true → ns.hooks.Sorted hookLE)

def WF (self : CrispHooks) : Prop := ∀ p ∈ self._hooks, WFSet p.2

theorem find?_map_replace (name : String) (ns : HookSet) :
    ∀ l : List (String × HookSet), l.any (fun p => p.1 == name) = true →
      (l.map (fun p => if p.1 == name then (name, ns) else p)).find?
          (fun p => p.1 == name) = some (name, ns) := by
  intro l
  induction l with
  | nil => simp
  | cons p rest ih =>
    intro hany
    by_cases hp : p.1 == name
    · simp [List.find?, hp]
    · have hrest : rest.any (fun p => p.1 == name) = true := by
        simpa [List.any_cons, hp] using hany
      simp only [List.map_cons, List.find?, if_neg hp]
      simpa [hp] using ih hrest

theorem find?_append_absent (name : String) (ns : HookSet) :
    ∀ l : List (String × HookSet), l.any (fun p => p.1 == name) = false →
      (l ++ [(name, ns)]).find? (fun p => p.1 == name) = some (name, ns) := by
  intro l
  induction l with
  | nil => simp [List.find?]
  | cons p rest ih =>
    intro hany
    have hp : (p.1 == name) = false := by
      by_contra hc
      simp [List.any_cons, eq_true_of_ne_false hc] at hany
    have hrest : rest.any (fun p => p.1 == name) = false := by
      simpa [List.any_cons, hp] using hany
    simp only [List.cons_append, List.find?, hp]
    exact ih hrest

theorem getHookSet_setHookSet (self : CrispHooks) (name : String) (ns : HookSet) :
    getHookSet (setHookSet self name ns) name = some ns := by
  unfold getHookSet setHookSet
  by_cases hany : self._hooks.any (fun p => p.1 == name)
  · simp only [if_pos hany]
    rw [find?_map_replace name ns self._hooks hany]
    rfl
  · simp only [if_neg hany]
    rw [find?_append_absent name ns self._hooks (Bool.of_not_eq_true hany)]
    rfl

theorem mem_setHookSet {self : CrispHooks} {name : String} {ns : HookSet}
    {p : String × HookSet} (hp : p ∈ (setHookSet self name ns)._hooks) :
    p = (name, ns) ∨ p ∈ self._hooks := by
  unfold setHookSet at hp
  by_cases hany : self._hooks.any (fun p => p.1 == name)
  · simp only [if_pos hany] at hp
    rcases List.mem_map.mp hp with ⟨q, hq, hfq⟩
    by_cases hq1 : q.1 == name
    · left; rw [← hfq, if_pos hq1]
    · right; rw [← hfq, if_neg hq1]; exact hq
  · simp only [if_neg hany] at hp
    rcases List.mem_append.mp hp with h | h
    · right; exact h
    · left; simpa using h

theorem WFSet_of_getHookSet {self : CrispHooks} {name : String} {ns : HookSet}
    (hwf : WF self) (h : getHookSet self name = some ns) : WFSet ns := by
  unfold getHookSet at h
  rcases Option.map_eq_some'.mp h with ⟨p, hfind, hp2⟩
  exact hp2 ▸ hwf p (List.mem_of_find?_eq_some hfind)

theorem WFSet_empty : WFSet ⟨[], true, 0⟩ := by
  refine ⟨rfl, ?_, ?_⟩
  · intro i h; simp at h
  · intro _; exact List.sorted_nil

theorem WF_newCrispHooks : WF newCrispHooks := by
  intro p hp; simp [newCrispHooks] at hp

theorem WFSet_push (ns : HookSet) (hns : WFSet ns) (x : Hook)
    (hxn : x.hookNumber = ns.hookCtr) :
    WFSet ⟨ns.hooks ++ [x],
           if (ns.hooks ++ [x]).length > 1 then false else ns.sorted,
           ns.hookCtr + 1⟩ := by
  obtain ⟨hctr, hgetn, hsort⟩ := hns
  refine ⟨by simp [hctr], ?_, ?_⟩
  · intro i hi
    have hi2 : i < ns.hooks.length + 1 := by
      simpa using hi
    rcases Nat.lt_or_ge i ns.hooks.length with hlt | hge
    · show ((ns.hooks ++ [x]).get ⟨i, hi⟩).hookNumber = i
      rw [List.get_eq_getElem, List.getElem_append_left hlt]
      exact hgetn i hlt
    · have hieq : i = ns.hooks.length := by omega
      subst hieq
      show ((ns.hooks ++ [x]).get ⟨_, hi⟩).hookNumber = _
      rw [List.get_eq_getElem, List.getElem_append_right (Nat.le_refl _)]
      simp [hxn, hctr]
  · intro hs
    replace hs : (if (ns.hooks ++ [x]).length > 1 then false else ns.sorted) = true := hs
    show List.Sorted hookLE (ns.hooks ++ [x])
    rcases hn : ns.hooks with _ | ⟨a, rest⟩
    · simp
    · exfalso
      rw [hn] at hs
      have hgt : ((a :: rest) ++ [x]).length > 1 := by simp
      rw [if_pos hgt] at hs
      simp at hs

theorem WF_addHook {self : CrispHooks} (hwf : WF self) (r : Reg) :
    WF (_addHook self r) := by
  intro p hp
  simp only [_addHook] at hp
  have hns : WFSet ((getHookSet self r.name).getD ⟨[], true, 0⟩) := by
    cases h : getHookSet self r.name with
    | none => exact WFSet_empty
    | some ns => exact WFSet_of_getHookSet hwf h
  rcases mem_setHookSet hp with hnew | hold
  · rw [hnew]
    exact WFSet_push _ hns _ rfl
  · exact hwf p hold

theorem WF_foldl {s : CrispHooks} (hwf : WF s) :
    ∀ regs : List Reg, WF (regs.foldl _addHook s) := by
  intro regs
  induction regs generalizing s with
  | nil => exact hwf
  | cons r rest ih => exact ih (WF_addHook hwf r)

theorem WF_applyRegs (regs : List Reg) : WF (applyRegs regs) :=
  WF_foldl WF_newCrispHooks regs

/-- The snapshot `_trigger` runs on: after the in-place sort, the stored
array under `name` is exactly the comparator-sorted permutation of the
registered entries. -/
theorem hooksOf_sortHooks {self : CrispHooks} (hwf : WF self) (name : String) :
    hooksOf (_sortHooks self name) name = sortHookList (hooksOf self name) := by
  unfold _sortHooks
  cases hget : getHookSet self name with
  | none => simp [hooksOf, hget, sortHookList]
  | some ns =>
    by_cases hcond : ns.hooks.length ≤ 1 || ns.sorted
    · simp only [if_pos hcond]
      have harr : hooksOf self name = ns.hooks := by simp [hooksOf, hget]
      rw [harr]
      have hsorted : ns.hooks.Sorted hookLE := by
        rcases Bool.or_eq_true_iff.mp hcond with hle | hs
        · match hhooks : ns.hooks with
          | [] => exact List.sorted_nil
          | [a] => exact List.sorted_singleton a
          | a :: b :: rest => rw [hhooks] at hle; simp at hle
        · exact (WFSet_of_getHookSet hwf hget).2.2 hs
      exact (hsorted.insertionSort_eq).symm
    · simp only [if_neg hcond]
      have h2 := getHookSet_setHookSet self name ⟨sortHookList ns.hooks, true, ns.hookCtr⟩
      simp [hooksOf, h2, hget]

/-- `hookNumber`s of the registered entries are `0, 1, 2, …` in list
(i.e. registration) order. -/
theorem hooksOf_hookNumber_range {self : CrispHooks} (hwf : WF self) (name : String) :
    (hooksOf self name).map Hook.hookNumber = List.range (hooksOf self name).length := by
  cases hget : getHookSet self name with
  | none => simp [hooksOf, hget]
  | some ns =>
    have harr : hooksOf self name = ns.hooks := by simp [hooksOf, hget]
    rw [harr]
    obtain ⟨_, hget2, _⟩ := WFSet_of_getHookSet hwf hget
    refine List.ext_get (by simp) ?_
    intro n h1 h2
    simp only [List.get_eq_getElem, List.getElem_map, List.getElem_range]
    have := hget2 n (by simpa using h1)
    simpa [List.get_eq_getElem] using this

/-! ### Execution lemmas for the asynchronous `_trigger` -/

/-- Forward run over a snapshot whose remaining handlers all succeed:
each handler runs once in order, its result is appended, and the trigger
resolves with the accumulated results. -/
theorem runNextHook_allSucc (arr : List Hook)
    (hs : ∀ h ∈ arr, h.handler.isSuccB = true) :
    ∀ gas i results tr, arr.length ≤ gas + i →
      runNextHook arr gas i results tr =
        (.resolved (.list (results ++ (arr.drop i).map (fun h => h.handler.succVal))),
         tr ++ (arr.drop i).map (fun h => Event.ranHandler h.hookNumber)) := by
  intro gas
  induction gas with
  | zero =>
    intro i results tr hle
    have hge : arr.length ≤ i := by simpa using hle
    rw [runNextHook, dif_neg (by omega : ¬ i < arr.length), List.drop_eq_nil_of_le hge]
    simp
  | succ gas ih =>
    intro i results tr hle
    by_cases hlt : i < arr.length
    · rw [runNextHook, dif_pos hlt]
      have hsucc := hs _ (List.get_mem arr i hlt)
      have hdrop : List.drop i arr = arr.get ⟨i, hlt⟩ :: List.drop (i + 1) arr := by
        rw [List.get_eq_getElem]
        exact List.drop_eq_getElem_cons hlt
      rcases hh : (arr.get ⟨i, hlt⟩).handler with v | e | v | e
      · simp only [hh]
        rw [ih (i + 1) _ _ (by omega), hdrop]
        simp only [List.map_cons, hh, HandlerSpec.succVal, List.append_assoc,
          List.singleton_append]
      · rw [hh] at hsucc
        simp [HandlerSpec.isSuccB] at hsucc
      · simp only [hh]
        rw [ih (i + 1) _ _ (by omega), hdrop]
        simp only [List.map_cons, hh, HandlerSpec.succVal, List.append_assoc,
          List.singleton_append]
      · rw [hh] at hsucc
        simp [HandlerSpec.isSuccB] at hsucc
    · rw [runNextHook, dif_neg hlt, List.drop_eq_nil_of_le (by omega)]
      simp

/-- Unwind over clean error handlers: walking from index `n - 1` down to
`0`, every entry with an error handler contributes exactly one invocation
event (in descending index order), entries without one are skipped, and
the unwind terminates in `resolve()` (preset mode) or `reject(error)`. -/
theorem filterRev_snoc_none {l : List Hook} {x : Hook} (hx : x.errorHandler = none) :
    (l ++ [x]).reverse.filter (fun h => h.errorHandler.isSome) =
      l.reverse.filter (fun h => h.errorHandler.isSome) := by
  simp [hx]

theorem filterRev_snoc_some {l : List Hook} {x : Hook} {eh : HandlerSpec}
    (hx : x.errorHandler = some eh) :
    (l ++ [x]).reverse.filter (fun h => h.errorHandler.isSome) =
      x :: l.reverse.filter (fun h => h.errorHandler.isSome) := by
  simp [hx]

theorem runNextErrorHook_clean (arr : List Hook) (preset : Bool) :
    ∀ n, n ≤ arr.length → (∀ h ∈ arr.take n, ehCleanB h = true) →
      ∀ error tr,
      runNextErrorHook arr preset n error tr =
        ((if preset then POutcome.resolved .undef else POutcome.rejected error),
         tr ++ ((arr.take n).reverse.filter (fun h => h.errorHandler.isSome)).map
                 (fun h => Event.ranErrorHandler h.hookNumber error)) := by
  intro n
  induction n with
  | zero =>
    intro _ _ error tr
    simp [runNextErrorHook]
  | succ n ih =>
    intro hle hclean error tr
    have hn : n < arr.length := hle
    have hget : arr.get? n = some (arr.get ⟨n, hn⟩) := by
      simp [List.get?_eq_getElem?, List.getElem?_eq_getElem hn, List.get_eq_getElem]
    have htake : arr.take (n + 1) = arr.take n ++ [arr.get ⟨n, hn⟩] := by
      rw [List.take_succ, List.getElem?_eq_getElem hn]
      simp [List.get_eq_getElem]
    have hmemtake : ∀ h ∈ arr.take n, h ∈ arr.take (n + 1) := by
      intro h hm
      rw [htake]
      exact List.mem_append_left _ hm
    have hcl := hclean (arr.get ⟨n, hn⟩) (by rw [htake]; exact List.mem_append_right _ (by simp))
    rw [runNextErrorHook, hget]
    rcases heh : (arr.get ⟨n, hn⟩).errorHandler with _ | (v | e2 | v | e2)
    · simp only [heh]
      rw [ih (Nat.le_of_lt hn) (fun h hm => hclean h (hmemtake h hm)) error tr, htake,
        filterRev_snoc_none heh]
    · simp only [heh]
      rw [ih (Nat.le_of_lt hn) (fun h hm => hclean h (hmemtake h hm)) error
        (tr ++ [Event.ranErrorHandler (arr.get ⟨n, hn⟩).hookNumber error]), htake,
        filterRev_snoc_some heh]
      simp
    · unfold ehCleanB at hcl
      rw [heh] at hcl
      simp at hcl
    · simp only [heh]
      rw [ih (Nat.le_of_lt hn) (fun h hm => hclean h (hmemtake h hm)) error
        (tr ++ [Event.ranErrorHandler (arr.get ⟨n, hn⟩).hookNumber error]), htake,
        filterRev_snoc_some heh]
      simp
    · unfold ehCleanB at hcl
      rw [heh] at hcl
      simp at hcl

/-- Whatever error handlers do, every event the unwinder appends to the
trace is an error-handler invocation carrying the unwinder's (constant)
error value. -/
theorem runNextErrorHook_events (arr : List Hook) (preset : Bool) :
    ∀ n error tr, ∃ ext,
      (runNextErrorHook arr preset n error tr).2 = tr ++ ext ∧
      ∀ ev ∈ ext, ∃ k, ev = Event.ranErrorHandler k error := by
  intro n
  induction n with
  | zero =>
    intro error tr
    exact ⟨[], by simp [runNextErrorHook], by simp⟩
  | succ n ih =>
    intro error tr
    rw [runNextErrorHook]
    cases hget : arr.get? n with
    | none => exact ⟨[], by simp, by simp⟩
    | some hook =>
      rcases heh : hook.errorHandler with _ | (v | e2 | v | e2)
      · simpa [heh] using ih error tr
      · simp only [heh]
        rcases ih error (tr ++ [Event.ranErrorHandler hook.hookNumber error]) with
          ⟨ext, hext, hall⟩
        refine ⟨Event.ranErrorHandler hook.hookNumber error :: ext, by simpa using hext, ?_⟩
        intro ev hev
        rcases List.mem_cons.mp hev with h | h
        · exact ⟨hook.hookNumber, h⟩
        · exact hall ev h
      · simp only [heh]
        exact ⟨[Event.ranErrorHandler hook.hookNumber error], by simp, by simp⟩
      · simp only [heh]
        rcases ih error (tr ++ [Event.ranErrorHandler hook.hookNumber error]) with
          ⟨ext, hext, hall⟩
        refine ⟨Event.ranErrorHandler hook.hookNumber error :: ext, by simpa using hext, ?_⟩
        intro ev hev
        rcases List.mem_cons.mp hev with h | h
        · exact ⟨hook.hookNumber, h⟩
        · exact hall ev h
      · simp only [heh]
        exact ⟨[Event.ranErrorHandler hook.hookNumber error], by simp, by simp⟩

/-- Forward run that fails at snapshot index `i` after the preceding
handlers succeeded: the handlers up to and including `i` each record one
invocation event and control transfers to the unwinder at index
`i - 1` carrying the failure value. -/
theorem runNextHook_failAt (arr : List Hook) (i : Nat) (hk : Hook) (e : JSVal)
    (hget : arr.get? i = some hk)
    (hpre : ∀ h ∈ arr.take i, h.handler.isSuccB = true)
    (hfail : failsWith hk.handler e) :
    ∀ gas s results tr, s ≤ i → arr.length ≤ gas + s →
      runNextHook arr gas s results tr =
        runNextErrorHook arr false i e
          (tr ++ ((arr.take (i + 1)).drop s).map (fun h => Event.ranHandler h.hookNumber)) := by
  have hi : i < arr.length := List.get?_eq_some.mp hget |>.1
  have hkeq : arr.get ⟨i, hi⟩ = hk := by
    have := List.get?_eq_some.mp hget
    exact this.2
  intro gas
  induction gas with
  | zero =>
    intro s results tr hsi hlen
    omega
  | succ gas ih =>
    intro s results tr hsi hlen
    have hslen : s < arr.length := by omega
    rw [runNextHook, dif_pos hslen]
    by_cases hcase : s = i
    · subst hcase
      have hkk : arr.get ⟨s, hslen⟩ = hk := hkeq
      have hdroptake : (arr.take (s + 1)).drop s = [arr.get ⟨s, hslen⟩] := by
        have hlt : s < (arr.take (s + 1)).length := by
          simp [List.length_take]; omega
        rw [List.drop_eq_getElem_cons hlt, List.getElem_take]
        have : (arr.take (s + 1)).drop (s + 1) = [] := by
          apply List.drop_eq_nil_of_le
          simp [List.length_take]
        rw [this, List.get_eq_getElem]
      rcases hh : hk.handler with v | e0 | v | e0
      · rw [hh] at hfail; exact absurd hfail (by simp [failsWith])
      · rw [hh] at hfail
        obtain ⟨htr, herr⟩ := hfail
        rw [hkk]
        simp only [hh, htr, if_true]
        rw [hdroptake, herr, hkk]
        simp
      · rw [hh] at hfail; exact absurd hfail (by simp [failsWith])
      · rw [hh] at hfail
        rw [hkk]
        simp only [hh]
        rw [hdroptake, hfail, hkk]
        simp
    · have hslti : s < i := by omega
      have hsl : s < (arr.take i).length := by simp [List.length_take]; omega
      have hmem : arr.get ⟨s, hslen⟩ ∈ arr.take i := by
        have h1 := List.get_mem (arr.take i) s hsl
        rw [List.get_eq_getElem, List.getElem_take] at h1
        rw [List.get_eq_getElem]
        exact h1
      have hsucc := hpre _ hmem
      have hdropstep : (arr.take (i + 1)).drop s =
          arr.get ⟨s, hslen⟩ :: (arr.take (i + 1)).drop (s + 1) := by
        have hlt : s < (arr.take (i + 1)).length := by
          simp [List.length_take]; omega
        rw [List.drop_eq_getElem_cons hlt, List.getElem_take, List.get_eq_getElem]
      rcases hh : (arr.get ⟨s, hslen⟩).handler with v | e0 | v | e0
      · simp only [hh]
        rw [ih (s + 1) (results ++ [v])
          (tr ++ [Event.ranHandler (arr.get ⟨s, hslen⟩).hookNumber]) (by omega) (by omega)]
        rw [hdropstep]
        simp
      · rw [hh] at hsucc; simp [HandlerSpec.isSuccB] at hsucc
      · simp only [hh]
        rw [ih (s + 1) (results ++ [v])
          (tr ++ [Event.ranHandler (arr.get ⟨s, hslen⟩).hookNumber]) (by omega) (by omega)]
        rw [hdropstep]
        simp
      · rw [hh] at hsucc; simp [HandlerSpec.isSuccB] at hsucc

/-- `trigger` is the forward run over the comparator-sorted snapshot of
the registered entries (for a well-formed container). -/
theorem trigger_run_eq {self : CrispHooks} (hwf : WF self) (name : String) :
    ∃ s, trigger self name =
      ⟨s, (runNextHook (sortHookList (hooksOf self name))
             (sortHookList (hooksOf self name)).length 0 [] []).1,
          (runNextHook (sortHookList (hooksOf self name))
             (sortHookList (hooksOf self name)).length 0 [] []).2⟩ := by
  unfold trigger _trigger
  cases hget : getHookSet self name with
  | none =>
    refine ⟨self, ?_⟩
    have hnil : hooksOf self name = [] := by simp [hooksOf, hget]
    rw [hnil]
    rfl
  | some ns =>
    refine ⟨_sortHooks self name, ?_⟩
    have harr := hooksOf_sortHooks hwf name
    rw [← harr]
    rfl

/-- C1: for every registered name, `trigger` runs the handlers in
ascending priority order with ties broken by registration order
(`hookNumber`, which equals the registration index), and resolves with
the per-handler results in exactly that execution order.  The hypothesis
restricts attention to runs in which every handler completes
successfully. -/
theorem c1_trigger_priority_order (regs : List Reg) (name : String)
    (hs : ∀ h ∈ hooksOf (applyRegs regs) name, h.handler.isSuccB = true) :
    (trigger (applyRegs regs) name).out =
      POutcome.resolved (.list ((sortHookList (hooksOf (applyRegs regs) name)).map
        (fun h => h.handler.succVal))) ∧
    (trigger (applyRegs regs) name).trace =
      (sortHookList (hooksOf (applyRegs regs) name)).map
        (fun h => Event.ranHandler h.hookNumber) ∧
    (sortHookList (hooksOf (applyRegs regs) name)).Perm (hooksOf (applyRegs regs) name) ∧
    (sortHookList (hooksOf (applyRegs regs) name)).Sorted hookLE ∧
    (hooksOf (applyRegs regs) name).map Hook.hookNumber =
      List.range (hooksOf (applyRegs regs) name).length := by
  have hwf := WF_applyRegs regs
  have hperm := List.perm_insertionSort hookLE (hooksOf (applyRegs regs) name)
  have hs2 : ∀ h ∈ sortHookList (hooksOf (applyRegs regs) name),
      h.handler.isSuccB = true := by
    intro h hm
    exact hs h (hperm.mem_iff.mp hm)
  obtain ⟨s, hrun⟩ := trigger_run_eq hwf name
  rw [hrun]
  rw [runNextHook_allSucc _ hs2 _ 0 [] [] (by omega)]
  refine ⟨by simp, by simp, hperm, List.sorted_insertionSort hookLE _,
    hooksOf_hookNumber_range hwf name⟩

theorem c1_trigger_priority_order_witness :
    (trigger w1self "x").out =
      POutcome.resolved (.list ((sortHookList (hooksOf w1self "x")).map
        (fun h => h.handler.succVal))) ∧
    (trigger w1self "x").trace =
      (sortHookList (hooksOf w1self "x")).map
        (fun h => Event.ranHandler h.hookNumber) ∧
    (sortHookList (hooksOf w1self "x")).Perm (hooksOf w1self "x") ∧
    (sortHookList (hooksOf w1self "x")).Sorted hookLE ∧
    (hooksOf w1self "x").map Hook.hookNumber =
      List.range (hooksOf w1self "x").length :=
  c1_trigger_priority_order
    [⟨"x", 2, .promiseOk (.str "A"), none⟩,
     ⟨"x", 3, .promiseOk (.str "B"), none⟩,
     ⟨"x", 1, .promiseOk (.str "C"), none⟩] "x" (by decide)

/-- C2 counterexample: with a synchronous throw of the falsy value
`null` at index 1, the trigger runs the remaining handler, invokes no
error handler, and resolves — contradicting the claim that the unwinder
visits index 0 for every synchronously-throwing handler. -/
theorem c2_unwind_counterexample :
    (trigger cex2self "x").out = POutcome.resolved (.list [.num 1, .num 3]) ∧
    (trigger cex2self "x").trace =
      [.ranHandler 0, .ranHandler 1, .ranHandler 2] ∧
    (∀ k e, Event.ranErrorHandler k e ∉ (trigger cex2self "x").trace) ∧
    (∀ e, (trigger cex2self "x").out ≠ POutcome.rejected e) := by
  refine ⟨by decide, by decide, ?_, ?_⟩
  · intro k e hmem
    have htr : (trigger cex2self "x").trace =
        [.ranHandler 0, .ranHandler 1, .ranHandler 2] := by decide
    rw [htr] at hmem
    simp at hmem
  · intro e he
    have hout : (trigger cex2self "x").out = POutcome.resolved (.list [.num 1, .num 3]) := by
      decide
    rw [hout] at he
    exact POutcome.noConfusion he

/-- Shared failure-path lemma: forward run fails at snapshot index `i`,
then the unwinder walks `i - 1 … 0` over clean error handlers and the
trigger rejects with the carried error. -/
theorem trigger_failure_run (regs : List Reg) (name : String) (i : Nat) (hk : Hook)
    (e : JSVal)
    (hget : (sortHookList (hooksOf (applyRegs regs) name)).get? i = some hk)
    (hpre : ∀ h ∈ (sortHookList (hooksOf (applyRegs regs) name)).take i,
      h.handler.isSuccB = true)
    (hfail : failsWith hk.handler e)
    (hclean : ∀ h ∈ (sortHookList (hooksOf (applyRegs regs) name)).take i,
      ehCleanB h = true) :
    (trigger (applyRegs regs) name).out = POutcome.rejected e ∧
    (trigger (applyRegs regs) name).trace =
      ((sortHookList (hooksOf (applyRegs regs) name)).take (i + 1)).map
        (fun h => Event.ranHandler h.hookNumber) ++
      (((sortHookList (hooksOf (applyRegs regs) name)).take i).reverse.filter
          (fun h => h.errorHandler.isSome)).map
        (fun h => Event.ranErrorHandler h.hookNumber e) := by
  have hwf := WF_applyRegs regs
  have hi : i < (sortHookList (hooksOf (applyRegs regs) name)).length :=
    (List.get?_eq_some.mp hget).1
  obtain ⟨s, hrun⟩ := trigger_run_eq hwf name
  rw [hrun]
  rw [runNextHook_failAt _ i hk e hget hpre hfail _ 0 [] [] (by omega) (by omega)]
  rw [runNextErrorHook_clean _ false i (by omega) hclean e _]
  simp

/-- C2 amended: when the handler at snapshot index `i` fails in a way the
engine recognises (`failsWith`: a synchronous throw of a *truthy* value,
or a rejecting deferred — a synchronous falsy throw is silently skipped)
after the earlier handlers succeeded, and the earlier entries' error
handlers are clean, the unwinder visits exactly indices `i - 1` down to
`0` in descending order, invoking each present error handler once and
skipping absent ones; the failing entry's own error handler is never
invoked, and for `i = 0` no error handler runs at all. -/
theorem c2_unwind_descending (regs : List Reg) (name : String) (i : Nat) (hk : Hook)
    (e : JSVal)
    (hget : (sortHookList (hooksOf (applyRegs regs) name)).get? i = some hk)
    (hpre : ∀ h ∈ (sortHookList (hooksOf (applyRegs regs) name)).take i,
      h.handler.isSuccB = true)
    (hfail : failsWith hk.handler e)
    (hclean : ∀ h ∈ (sortHookList (hooksOf (applyRegs regs) name)).take i,
      ehCleanB h = true) :
    (trigger (applyRegs regs) name).out = POutcome.rejected e ∧
    (trigger (applyRegs regs) name).trace =
      ((sortHookList (hooksOf (applyRegs regs) name)).take (i + 1)).map
        (fun h => Event.ranHandler h.hookNumber) ++
      (((sortHookList (hooksOf (applyRegs regs) name)).take i).reverse.filter
          (fun h => h.errorHandler.isSome)).map
        (fun h => Event.ranErrorHandler h.hookNumber e) :=
  trigger_failure_run regs name i hk e hget hpre hfail hclean

theorem c2_unwind_descending_witness :
    (trigger w2self "x").out = POutcome.rejected (.num 123) ∧
    (trigger w2self "x").trace =
      ((sortHookList (hooksOf w2self "x")).take 3).map
        (fun h => Event.ranHandler h.hookNumber) ++
      (((sortHookList (hooksOf w2self "x")).take 2).reverse.filter
          (fun h => h.errorHandler.isSome)).map
        (fun h => Event.ranErrorHandler h.hookNumber (.num 123)) :=
  c2_unwind_descending
    [⟨"x", 1, .retVal (.str "A"), some (.retVal .undef)⟩,
     ⟨"x", 2, .retVal (.str "B"), some (.retVal .undef)⟩,
     ⟨"x", 3, .promiseErr (.num 123), some (.retVal .undef)⟩] "x" 2
    ⟨3, 2, .promiseErr (.num 123), some (.retVal .undef)⟩ (.num 123)
    (by decide) (by decide) (by decide) (by decide)

/-- C5 counterexample: a deferred rejection with the falsy value `0` is
not reported unmodified — `runNextHook` substitutes
`new Error('Error running hook')` (src/crisphooks.js line 184), so the
trigger rejects with that fresh Error object instead of `0`. -/
theorem c5_failure_value_counterexample :
    (trigger cex5self "x").out = POutcome.rejected hookRunError ∧
    (trigger cex5self "x").out ≠ POutcome.rejected (.num 0) := by
  constructor
  · decide
  · intro he
    have hout : (trigger cex5self "x").out = POutcome.rejected hookRunError := by decide
    rw [hout] at he
    have := POutcome.rejected.inj he
    exact JSVal.noConfusion this

/-- C5 amended: when the failing handler throws or rejects with a
*truthy* value `e` (and the earlier handlers succeeded and their error
handlers are clean), the trigger's completion channel reports exactly
`e`, unmodified.  (A falsy rejection value is replaced by
`new Error('Error running hook')`, and a falsy synchronous throw does
not fail the trigger at all.) -/
theorem c5_truthy_failure_value (regs : List Reg) (name : String) (i : Nat) (hk : Hook)
    (e : JSVal)
    (hget : (sortHookList (hooksOf (applyRegs regs) name)).get? i = some hk)
    (hpre : ∀ h ∈ (sortHookList (hooksOf (applyRegs regs) name)).take i,
      h.handler.isSuccB = true)
    (hfail2 : hk.handler = .throwVal e ∨ hk.handler = .promiseErr e)
    (ht : truthy e = true)
    (hclean : ∀ h ∈ (sortHookList (hooksOf (applyRegs regs) name)).take i,
      ehCleanB h = true) :
    (trigger (applyRegs regs) name).out = POutcome.rejected e := by
  have hfail : failsWith hk.handler e := by
    rcases hfail2 with h | h
    · rw [h]; exact ⟨ht, rfl⟩
    · rw [h]; simp [failsWith, ht]
  exact (trigger_failure_run regs name i hk e hget hpre hfail hclean).1

theorem c5_truthy_failure_value_witness :
    (trigger w2self "x").out = POutcome.rejected (.num 123) :=
  c5_truthy_failure_value
    [⟨"x", 1, .retVal (.str "A"), some (.retVal .undef)⟩,
     ⟨"x", 2, .retVal (.str "B"), some (.retVal .undef)⟩,
     ⟨"x", 3, .promiseErr (.num 123), some (.retVal .undef)⟩] "x" 2
    ⟨3, 2, .promiseErr (.num 123), some (.retVal .undef)⟩ (.num 123)
    (by decide) (by decide) (Or.inr rfl) (by decide) (by decide)

/-- C6: `triggerError(name, err)` runs no normal handlers — its trace
consists exactly of the error-handler invocations of the sorted
snapshot, walked from the last index down to 0 (descending priority
order), skipping entries without an error handler — and its returned
deferred completes successfully once all of them have run.  Hypotheses:
the supplied error is truthy (a falsy one is replaced by `new Error()`
before this point) and the error handlers are clean. -/
theorem c6_triggerError_unwinds_only (regs : List Reg) (name : String) (err : JSVal)
    (ht : truthy err = true)
    (hclean : ∀ h ∈ hooksOf (applyRegs regs) name, ehCleanB h = true) :
    (∀ k, Event.ranHandler k ∉ (triggerError (applyRegs regs) name (some err)).trace) ∧
    (triggerError (applyRegs regs) name (some err)).trace =
      ((sortHookList (hooksOf (applyRegs regs) name)).reverse.filter
          (fun h => h.errorHandler.isSome)).map
        (fun h => Event.ranErrorHandler h.hookNumber err) ∧
    (∃ r, (triggerError (applyRegs regs) name (some err)).out = POutcome.resolved r) := by
  have hwf := WF_applyRegs regs
  have hperm := List.perm_insertionSort hookLE (hooksOf (applyRegs regs) name)
  have hcl2 : ∀ h ∈ sortHookList (hooksOf (applyRegs regs) name), ehCleanB h = true := by
    intro h hm
    exact hclean h (hperm.mem_iff.mp hm)
  unfold triggerError _trigger
  simp only [ht, if_true]
  cases hget : getHookSet (applyRegs regs) name with
  | none =>
    have hnil : hooksOf (applyRegs regs) name = [] := by simp [hooksOf, hget]
    rw [hnil]
    exact ⟨by simp, by simp [sortHookList], ⟨.list [], rfl⟩⟩
  | some ns =>
    have harr := hooksOf_sortHooks hwf name
    have htw : truthyOpt (some err) = true := ht
    simp only [htw, if_true]
    rw [harr]
    simp only [Option.getD_some]
    rw [runNextErrorHook_clean _ true _ (Nat.le_refl _)
      (by rw [List.take_length]; exact hcl2) err []]
    rw [List.take_length]
    refine ⟨?_, by simp, ⟨.undef, rfl⟩⟩
    intro k hk
    simp only [List.nil_append, List.mem_map] at hk
    rcases hk with ⟨h, _, habs⟩
    exact Event.noConfusion habs

theorem c6_triggerError_unwinds_only_witness :
    (∀ k, Event.ranHandler k ∉ (triggerError w6self "x" (some (.num 123))).trace) ∧
    (triggerError w6self "x" (some (.num 123))).trace =
      ((sortHookList (hooksOf w6self "x")).reverse.filter
          (fun h => h.errorHandler.isSome)).map
        (fun h => Event.ranErrorHandler h.hookNumber (.num 123)) ∧
    (∃ r, (triggerError w6self "x" (some (.num 123))).out = POutcome.resolved r) :=
  c6_triggerError_unwinds_only
    [⟨"x", 1, .retVal (.str "A"), some (.retVal .undef)⟩,
     ⟨"x", 2, .retVal (.str "B"), none⟩,
     ⟨"x", 3, .retVal (.str "C"), some (.promiseOk .undef)⟩] "x" (.num 123)
    (by decide) (by decide)

/-- Synchronous unwind (`runNextErrorHook` of `_triggerSync`): every
event it appends to the trace is an error-handler invocation carrying the
unwinder's (constant) error value. -/
theorem syncRun_neh_events (arr : List Hook) (preset : Bool) :
    ∀ fuel error st st2 ex,
      syncRun arr preset fuel (.neh error) st = some (st2, ex) →
      ∃ ext, st2.trace = st.trace ++ ext ∧
        ∀ ev ∈ ext, ∀ k e2, ev = Event.ranErrorHandler k e2 → e2 = error := by
  intro fuel
  induction fuel with
  | zero =>
    intro error st st2 ex h
    simp [syncRun] at h
  | succ fuel ih =>
    intro error st st2 ex h
    rw [syncRun] at h
    by_cases hcur : st.cur < 0
    · rw [if_pos hcur] at h
      cases preset with
      | true =>
        simp only [if_true] at h
        obtain ⟨rfl, rfl⟩ : st = st2 ∧ none = ex := by
          have := Option.some.inj h
          exact ⟨congrArg Prod.fst this, congrArg Prod.snd this⟩
        exact ⟨[], by simp, by simp⟩
      | false =>
        simp only [Bool.false_eq_true, if_false] at h
        obtain ⟨rfl, rfl⟩ : st = st2 ∧ some error = ex := by
          have := Option.some.inj h
          exact ⟨congrArg Prod.fst this, congrArg Prod.snd this⟩
        exact ⟨[], by simp, by simp⟩
    · rw [if_neg hcur] at h
      cases hget : arr.get? st.cur.toNat with
      | none =>
        simp only [hget] at h
        obtain ⟨rfl, rfl⟩ : st = st2 ∧ some jsTypeError = ex := by
          have := Option.some.inj h
          exact ⟨congrArg Prod.fst this, congrArg Prod.snd this⟩
        exact ⟨[], by simp, by simp⟩
      | some hook =>
        simp only [hget] at h
        rcases heh : hook.errorHandler with _ | (v | e2 | v | e2)
        · simp only [heh] at h
          obtain ⟨ext, hext, hall⟩ := ih error _ st2 ex h
          exact ⟨ext, by simpa using hext, hall⟩
        · simp only [heh] at h
          obtain ⟨ext, hext, hall⟩ := ih error _ st2 ex h
          refine ⟨Event.ranErrorHandler hook.hookNumber error :: ext, ?_, ?_⟩
          · simpa using hext
          · intro ev hev k e3 hevk
            rcases List.mem_cons.mp hev with hv | hv
            · rw [hv] at hevk
              exact (Event.ranErrorHandler.inj hevk.symm).2
            · exact hall ev hv k e3 hevk
        · simp only [heh] at h
          obtain ⟨rfl, rfl⟩ : _ = st2 ∧ some e2 = ex := by
            have := Option.some.inj h
            exact ⟨congrArg Prod.fst this, congrArg Prod.snd this⟩
          refine ⟨[Event.ranErrorHandler hook.hookNumber error], by simp, ?_⟩
          intro ev hev k e3 hevk
          rcases List.mem_singleton.mp hev with hv
          rw [hv] at hevk
          exact (Event.ranErrorHandler.inj hevk.symm).2
        · simp only [heh] at h
          obtain ⟨ext, hext, hall⟩ := ih error _ st2 ex h
          refine ⟨Event.ranErrorHandler hook.hookNumber error :: ext, ?_, ?_⟩
          · simpa using hext
          · intro ev hev k e3 hevk
            rcases List.mem_cons.mp hev with hv | hv
            · rw [hv] at hevk
              exact (Event.ranErrorHandler.inj hevk.symm).2
            · exact hall ev hv k e3 hevk
        · simp only [heh] at h
          obtain ⟨ext, hext, hall⟩ := ih error _ st2 ex h
          refine ⟨Event.ranErrorHandler hook.hookNumber error :: ext, ?_, ?_⟩
          · simpa using hext
          · intro ev hev k e3 hevk
            rcases List.mem_cons.mp hev with hv | hv
            · rw [hv] at hevk
              exact (Event.ranErrorHandler.inj hevk.symm).2
            · exact hall ev hv k e3 hevk

/-- C10: when `triggerError` or `triggerErrorSync` is called with the
error argument omitted or falsy, the error handlers never see that
value — a freshly constructed `new Error()` is substituted and every
error-handler invocation receives it instead. -/
theorem c10_falsy_error_substituted (self : CrispHooks) (name : String)
    (errArg : Option JSVal) (hfalsy : truthyOpt errArg = false) :
    (∀ ev ∈ (triggerError self name errArg).trace,
        ∀ k e, ev = Event.ranErrorHandler k e → e = jsNewError) ∧
    (∀ ev ∈ (triggerErrorSync self name errArg).trace,
        ∀ k e, ev = Event.ranErrorHandler k e → e = jsNewError) := by
  have hcall : triggerError self name errArg = _trigger self name (some jsNewError) := by
    unfold triggerError
    cases errArg with
    | none => rfl
    | some e =>
      have hte : truthy e = false := by simpa [truthyOpt] using hfalsy
      simp [hte]
  have hcallSync : triggerErrorSync self name errArg =
      _triggerSync self name (some jsNewError) := by
    unfold triggerErrorSync
    cases errArg with
    | none => rfl
    | some e =>
      have hte : truthy e = false := by simpa [truthyOpt] using hfalsy
      simp [hte]
  constructor
  · rw [hcall]
    unfold _trigger
    cases hget : getHookSet self name with
    | none => intro ev hev; simp at hev
    | some ns =>
      have htw : truthyOpt (some jsNewError) = true := rfl
      simp only [htw, if_true, Option.getD_some]
      intro ev hev k e hevk
      obtain ⟨ext, hext, hall⟩ := runNextErrorHook_events
        (hooksOf (_sortHooks self name) name) true
        (hooksOf (_sortHooks self name) name).length jsNewError []
      rw [hext] at hev
      rcases hall ev (by simpa using hev) with ⟨k2, hk2⟩
      rw [hevk] at hk2
      exact (Event.ranErrorHandler.inj hk2).2
  · rw [hcallSync]
    unfold _triggerSync
    cases hget : getHookSet self name with
    | none => intro ev hev; simp at hev
    | some ns =>
      have htw : truthyOpt (some jsNewError) = true := rfl
      simp only [htw, if_true, Option.getD_some]
      cases hsr : syncRun (hooksOf (_sortHooks self name) name) true
          (syncFuel (hooksOf (_sortHooks self name) name)) (.neh jsNewError)
          ⟨((hooksOf (_sortHooks self name) name).length : Int) - 1, [], [], []⟩ with
      | none =>
        simp only [hsr]
        intro ev hev
        simp at hev
      | some pr =>
        obtain ⟨st2, ex⟩ := pr
        obtain ⟨ext, hext, hall⟩ := syncRun_neh_events _ true _ jsNewError _ st2 ex hsr
        cases ex with
        | none =>
          simp only [hsr]
          intro ev hev k e hevk
          replace hev : ev ∈ st2.trace := hev
          rw [hext] at hev
          have := hall ev (by simpa using hev) k e hevk
          exact this
        | some e2 =>
          simp only [hsr]
          intro ev hev k e hevk
          replace hev : ev ∈ st2.trace := hev
          rw [hext] at hev
          exact hall ev (by simpa using hev) k e hevk

theorem c10_falsy_error_substituted_witness :
    (∀ ev ∈ (triggerError w10self "x" (some (.num 0))).trace,
        ∀ k e, ev = Event.ranErrorHandler k e → e = jsNewError) ∧
    (∀ ev ∈ (triggerErrorSync w10self "x" (some (.num 0))).trace,
        ∀ k e, ev = Event.ranErrorHandler k e → e = jsNewError) :=
  c10_falsy_error_substituted w10self "x" (some (.num 0)) (by decide)

/-- Synchronous forward run over handlers that never throw
synchronously: every handler runs once in order, plain return values are
collected, promise-returning handlers contribute no result (their
rejections are recorded as escaping), and the run returns normally with
the cursor at the end of the snapshot. -/
theorem syncRun_fwd_noThrow (arr : List Hook)
    (hs : ∀ h ∈ arr, h.handler.isThrowB = false) :
    ∀ fuel i results tr esc, i ≤ arr.length → arr.length - i + 1 ≤ fuel →
      syncRun arr false fuel (.nh none) ⟨(i : Int), results, tr, esc⟩ =
        some (⟨(arr.length : Int),
               results ++ (arr.drop i).filterMap (fun h => h.handler.plainVal),
               tr ++ (arr.drop i).map (fun h => Event.ranHandler h.hookNumber),
               esc ++ (arr.drop i).filterMap (fun h => h.handler.rejectVal)⟩, none) := by
  intro fuel
  induction fuel with
  | zero =>
    intro i results tr esc hile hfuel
    omega
  | succ fuel ih =>
    intro i results tr esc hile hfuel
    rw [syncRun]
    simp only [truthyOpt, Bool.false_eq_true, if_false]
    by_cases hlt : i < arr.length
    · have hcur : ¬ ((i : Int) ≥ (arr.length : Int)) := by
        simp only [ge_iff_le, Int.ofNat_le]
        omega
      rw [if_neg hcur]
      have hpos : (0 : Int) ≤ (i : Int) := Int.ofNat_nonneg i
      rw [if_pos hpos]
      have htonat : ((i : Int)).toNat = i := Int.toNat_natCast i
      rw [htonat]
      have hget : arr.get? i = some (arr.get ⟨i, hlt⟩) := by
        simp [List.get?_eq_getElem?, List.getElem?_eq_getElem hlt, List.get_eq_getElem]
      rw [hget]
      have hdrop : List.drop i arr = arr.get ⟨i, hlt⟩ :: List.drop (i + 1) arr := by
        rw [List.get_eq_getElem]
        exact List.drop_eq_getElem_cons hlt
      have hnothrow := hs _ (List.get_mem arr i hlt)
      rcases hh : (arr.get ⟨i, hlt⟩).handler with v | e | v | e
      · simp only [hh]
        rw [show ((i : Int) + 1) = ((i + 1 : Nat) : Int) by push_cast; ring] at *
        rw [ih (i + 1) (results ++ [v]) _ _ (by omega) (by omega)]
        rw [hdrop]
        simp only [List.filterMap_cons, List.map_cons, hh, HandlerSpec.plainVal,
          HandlerSpec.rejectVal, List.append_assoc, List.singleton_append]
      · rw [hh] at hnothrow
        simp [HandlerSpec.isThrowB] at hnothrow
      · simp only [hh]
        rw [show ((i : Int) + 1) = ((i + 1 : Nat) : Int) by push_cast; ring] at *
        rw [ih (i + 1) results _ _ (by omega) (by omega)]
        rw [hdrop]
        simp only [List.filterMap_cons, List.map_cons, hh, HandlerSpec.plainVal,
          HandlerSpec.rejectVal, List.append_assoc, List.singleton_append]
      · simp only [hh]
        rw [show ((i : Int) + 1) = ((i + 1 : Nat) : Int) by push_cast; ring] at *
        rw [ih (i + 1) results _ (esc ++ [e]) (by omega) (by omega)]
        rw [hdrop]
        simp only [List.filterMap_cons, List.map_cons, hh, HandlerSpec.plainVal,
          HandlerSpec.rejectVal, List.append_assoc, List.singleton_append]
    · have hieq : i = arr.length := by omega
      subst hieq
      rw [if_pos (le_refl ((arr.length : Int)))]
      rw [List.drop_eq_nil_of_le (le_refl _)]
      simp

/-- C9: in `triggerSync`, a handler that returns a deferred (thenable)
contributes no element to the returned results array — execution
proceeds immediately to the next handler — so the returned list holds
exactly the return values of the handlers that returned plain values, in
execution order, and can be shorter than the number of handlers run (all
of which appear in the trace).  Hypothesis: no handler of the name throws
synchronously (a synchronous-only variant failure path is a separate
concern). -/
theorem c9_triggerSync_promise_no_result (regs : List Reg) (name : String)
    (hnothrow : ∀ h ∈ hooksOf (applyRegs regs) name, h.handler.isThrowB = false) :
    (triggerSync (applyRegs regs) name).out =
      .returned ((sortHookList (hooksOf (applyRegs regs) name)).filterMap
        (fun h => h.handler.plainVal)) ∧
    (triggerSync (applyRegs regs) name).trace =
      (sortHookList (hooksOf (applyRegs regs) name)).map
        (fun h => Event.ranHandler h.hookNumber) ∧
    ((sortHookList (hooksOf (applyRegs regs) name)).filterMap
        (fun h => h.handler.plainVal)).length ≤
      (sortHookList (hooksOf (applyRegs regs) name)).length := by
  have hwf := WF_applyRegs regs
  have hperm := List.perm_insertionSort hookLE (hooksOf (applyRegs regs) name)
  have hnt2 : ∀ h ∈ sortHookList (hooksOf (applyRegs regs) name),
      h.handler.isThrowB = false := by
    intro h hm
    exact hnothrow h (hperm.mem_iff.mp hm)
  unfold triggerSync _triggerSync
  cases hget : getHookSet (applyRegs regs) name with
  | none =>
    have hnil : hooksOf (applyRegs regs) name = [] := by simp [hooksOf, hget]
    rw [hnil]
    exact ⟨rfl, rfl, List.length_filterMap_le _ _⟩
  | some ns =>
    have harr := hooksOf_sortHooks hwf name
    simp only [truthyOpt, Bool.false_eq_true, if_false]
    rw [harr]
    have hrun := syncRun_fwd_noThrow _ hnt2
      (syncFuel (sortHookList (hooksOf (applyRegs regs) name))) 0 [] [] []
      (by omega) (by unfold syncFuel; omega)
    simp only [Nat.cast_zero, List.drop_zero, List.nil_append] at hrun
    rw [hrun]
    refine ⟨by simp, by simp, List.length_filterMap_le _ _⟩

theorem c9_triggerSync_promise_no_result_witness :
    (triggerSync w9self "x").out =
      .returned ((sortHookList (hooksOf w9self "x")).filterMap
        (fun h => h.handler.plainVal)) ∧
    (triggerSync w9self "x").trace =
      (sortHookList (hooksOf w9self "x")).map
        (fun h => Event.ranHandler h.hookNumber) ∧
    ((sortHookList (hooksOf w9self "x")).filterMap
        (fun h => h.handler.plainVal)).length ≤
      (sortHookList (hooksOf w9self "x")).length :=
  c9_triggerSync_promise_no_result
    [⟨"x", 0, .retVal (.str "A"), none⟩,
     ⟨"x", 0, .promiseOk (.str "B"), none⟩,
     ⟨"x", 0, .retVal (.str "C"), none⟩,
     ⟨"x", 0, .promiseErr (.num 7), none⟩] "x" (by decide)

/-- C3 counterexample: when the middle-stage trigger of `name` fails
(after the pre-stage succeeded, before the body runs), the wrap does
*not* fail with the original error — `cleanupOnError` forgets to return
the cleanup chain in its `ranPreHooks` branch (src/crisphooks.js lines
420-423), so the wrap resolves with `undefined`. -/
theorem c3_wrap_middle_failure_counterexample :
    (triggerWrap cex3self "foo" (.retVal (.num 5))).out = .resolved .undef ∧
    (triggerWrap cex3self "foo" (.retVal (.num 5))).out ≠ .rejected (.num 9) := by
  decide

/-- C3 amended: if the middle-stage trigger of `name` fails after the
pre-stage succeeded, the wrap runs error-cleanup only for
`"pre-" + name` (the failing trigger's own internal unwind already
handled `name`'s preceding entries; no outer `triggerError(name)` runs),
and — because the `ranPreHooks` branch of `cleanupOnError` does not
return its cleanup chain — the wrap's returned deferred resolves with
`undefined` instead of failing with the original error. -/
theorem c3_wrap_middle_failure (self : CrispHooks) (name : String) (fn : HandlerSpec)
    (pr : PResult) (e : JSVal)
    (hpre : (trigger self ("pre-" ++ name)).out = .resolved pr)
    (hmid : (trigger (trigger self ("pre-" ++ name)).self name).out = .rejected e) :
    (triggerWrap self name fn).out = .resolved .undef ∧
    (triggerWrap self name fn).trace =
      (trigger self ("pre-" ++ name)).trace ++
      (trigger (trigger self ("pre-" ++ name)).self name).trace ++
      (triggerError (trigger (trigger self ("pre-" ++ name)).self name).self
        ("pre-" ++ name) (some e)).trace := by
  unfold triggerWrap cleanupOnError
  simp only [hpre, hmid, Bool.false_eq_true, if_false, if_true]
  exact ⟨trivial, by simp⟩

theorem c3_wrap_middle_failure_witness :
    (triggerWrap cex3self "foo" (.retVal (.num 5))).out = .resolved .undef ∧
    (triggerWrap cex3self "foo" (.retVal (.num 5))).trace =
      (trigger cex3self ("pre-" ++ "foo")).trace ++
      (trigger (trigger cex3self ("pre-" ++ "foo")).self "foo").trace ++
      (triggerError (trigger (trigger cex3self ("pre-" ++ "foo")).self "foo").self
        ("pre-" ++ "foo") (some (.num 9))).trace :=
  c3_wrap_middle_failure cex3self "foo" (.retVal (.num 5)) (.list [.num 1]) (.num 9)
    (by decide) (by decide)

/-- C4 (code bug): with no hooks registered and a body returning `7`,
`triggerWrap` resolves with the post-stage trigger's result array `[]` —
the final `then` returns `runHooks('post-' + name)` — and not with the
body's result, contradicting the claim and the code's own documentation
("Returns the return value of fn", typed `Promise<T>`). -/
theorem c4_wrap_resolves_with_post_results :
    (triggerWrap newCrispHooks "foo" (.retVal (.num 7))).out =
      .resolved (.list []) ∧
    (triggerWrap newCrispHooks "foo" (.retVal (.num 7))).out ≠
      .resolved (.val (.num 7)) := by
  decide

/-- C7: when the post-stage trigger fails with `e` (all earlier stages
having succeeded), the wrap runs error-cleanup for `name`, then for
`"pre-" + name` — never an outer cleanup of `"post-" + name` — and the
wrap's overall failure value is exactly the injected error `e`. -/
theorem c7_wrap_post_failure (self : CrispHooks) (name : String) (fn : HandlerSpec)
    (e : JSVal) (p1 p2 : PResult) (v : JSVal) (q1 q2 : PResult)
    (hp1 : (trigger self ("pre-" ++ name)).out = .resolved p1)
    (hp2 : (trigger (trigger self ("pre-" ++ name)).self name).out = .resolved p2)
    (hv : bodyOutcome fn = .ok v)
    (hp3 : (trigger (trigger (trigger self ("pre-" ++ name)).self name).self
        ("post-" ++ name)).out = .rejected e)
    (hc1 : (triggerError (trigger (trigger (trigger self ("pre-" ++ name)).self name).self
        ("post-" ++ name)).self name (some e)).out = .resolved q1)
    (hc2 : (triggerError (triggerError (trigger (trigger (trigger self
        ("pre-" ++ name)).self name).self ("post-" ++ name)).self name (some e)).self
        ("pre-" ++ name) (some e)).out = .resolved q2) :
    (triggerWrap self name fn).out = .rejected e ∧
    (triggerWrap self name fn).trace =
      (trigger self ("pre-" ++ name)).trace ++
      (trigger (trigger self ("pre-" ++ name)).self name).trace ++
      (trigger (trigger (trigger self ("pre-" ++ name)).self name).self
        ("post-" ++ name)).trace ++
      (triggerError (trigger (trigger (trigger self ("pre-" ++ name)).self name).self
        ("post-" ++ name)).self name (some e)).trace ++
      (triggerError (triggerError (trigger (trigger (trigger self
        ("pre-" ++ name)).self name).self ("post-" ++ name)).self name (some e)).self
        ("pre-" ++ name) (some e)).trace := by
  unfold triggerWrap cleanupOnError
  simp only [hp1, hp2, hv, hp3, hc1, hc2, if_true]
  exact ⟨trivial, by simp⟩

theorem c7_wrap_post_failure_witness :
    (triggerWrap w7self "foo" (.retVal (.str "E"))).out = .rejected (.num 123) ∧
    (triggerWrap w7self "foo" (.retVal (.str "E"))).trace =
      (trigger w7self ("pre-" ++ "foo")).trace ++
      (trigger (trigger w7self ("pre-" ++ "foo")).self "foo").trace ++
      (trigger (trigger (trigger w7self ("pre-" ++ "foo")).self "foo").self
        ("post-" ++ "foo")).trace ++
      (triggerError (trigger (trigger (trigger w7self ("pre-" ++ "foo")).self "foo").self
        ("post-" ++ "foo")).self "foo" (some (.num 123))).trace ++
      (triggerError (triggerError (trigger (trigger (trigger w7self
        ("pre-" ++ "foo")).self "foo").self ("post-" ++ "foo")).self "foo"
        (some (.num 123))).self ("pre-" ++ "foo") (some (.num 123))).trace :=
  c7_wrap_post_failure w7self "foo" (.retVal (.str "E")) (.num 123)
    (.list [.undef, .undef]) (.list [.undef, .undef]) (.str "E") .undef .undef
    (by decide) (by decide) rfl (by decide) (by decide) (by decide)

theorem stepFl_finished {fl : InFlight} {o : POutcome} (h : fl.mode = .finished o) :
    stepFl fl = fl := by
  unfold stepFl
  rw [h]

theorem runFl_finished {fl : InFlight} {o : POutcome} (h : fl.mode = .finished o) :
    ∀ k, runFl k fl = fl := by
  intro k
  induction k with
  | zero => rfl
  | succ k ih =>
    rw [runFl, stepFl_finished h]
    exact ih

theorem runFl_add (a b : Nat) : ∀ fl, runFl (a + b) fl = runFl b (runFl a fl) := by
  induction a with
  | zero => intro fl; rw [Nat.zero_add]; rfl
  | succ a ih =>
    intro fl
    have : a + 1 + b = (a + b) + 1 := by omega
    rw [this, runFl, runFl, ih]

/-- The step machine replays `runNextErrorHook`: from unwind position `n`
it reaches the corresponding finished state in `n + 1` steps. -/
theorem runFl_runE (arr : List Hook) (preset : Bool) :
    ∀ n error tr, n ≤ arr.length →
      runFl (n + 1) ⟨arr, preset, .runE n error, tr⟩ =
        ⟨arr, preset, .finished (runNextErrorHook arr preset n error tr).1,
         (runNextErrorHook arr preset n error tr).2⟩ := by
  intro n
  induction n with
  | zero =>
    intro error tr _
    rw [runFl, runFl]
    unfold stepFl
    simp only [runNextErrorHook]
  | succ n ih =>
    intro error tr hle
    have hn : n < arr.length := hle
    have hget : arr.get? n = some (arr.get ⟨n, hn⟩) := by
      simp [List.get?_eq_getElem?, List.getElem?_eq_getElem hn, List.get_eq_getElem]
    rw [runFl]
    show runFl (n + 1) (stepFl ⟨arr, preset, .runE (n + 1) error, tr⟩) = _
    unfold stepFl
    simp only [hget]
    rw [runNextErrorHook, hget]
    rcases heh : (arr.get ⟨n, hn⟩).errorHandler with _ | (v | e2 | v | e2)
    · simp only [heh]
      exact ih error tr (Nat.le_of_lt hn)
    · simp only [heh]
      exact ih error _ (Nat.le_of_lt hn)
    · simp only [heh]
      exact runFl_finished rfl _
    · simp only [heh]
      exact ih error _ (Nat.le_of_lt hn)
    · simp only [heh]
      exact runFl_finished rfl _

/-- The step machine replays `runNextHook`: from forward position `i` it
reaches the corresponding finished state within the stated step
budget. -/
theorem runFl_runF (arr : List Hook) :
    ∀ gas i results tr, arr.length ≤ gas + i →
      runFl (2 * (arr.length - i) + arr.length + 2) ⟨arr, false, .runF i results, tr⟩ =
        ⟨arr, false, .finished (runNextHook arr gas i results tr).1,
         (runNextHook arr gas i results tr).2⟩ := by
  intro gas
  induction gas with
  | zero =>
    intro i results tr hle
    have hge : arr.length ≤ i := by omega
    have hnil : arr.length - i = 0 := by omega
    rw [hnil]
    have hB : 2 * 0 + arr.length + 2 = (arr.length + 1) + 1 := by omega
    rw [hB, runFl]
    show runFl (arr.length + 1) (stepFl _) = _
    unfold stepFl
    simp only [dif_neg (by omega : ¬ i < arr.length)]
    rw [runNextHook, dif_neg (by omega : ¬ i < arr.length)]
    exact runFl_finished rfl _
  | succ gas ih =>
    intro i results tr hle
    by_cases hlt : i < arr.length
    · have hB : 2 * (arr.length - i) + arr.length + 2 =
          (2 * (arr.length - (i + 1)) + arr.length + 2) + 1 + 1 := by omega
      rw [hB, runFl]
      show runFl (2 * (arr.length - (i + 1)) + arr.length + 2 + 1) (stepFl _) = _
      unfold stepFl
      simp only [dif_pos hlt]
      rw [runNextHook, dif_pos hlt]
      rcases hh : (arr.get ⟨i, hlt⟩).handler with v | e | v | e
      · simp only [hh]
        rw [runFl_add, ih (i + 1) _ _ (by omega)]
        exact runFl_finished rfl _
      · simp only [hh]
        by_cases ht : truthy e = true
        · simp only [ht, if_true]
          have hsteps : 2 * (arr.length - (i + 1)) + arr.length + 2 + 1 =
              (i + 1) + (2 * (arr.length - (i + 1)) + arr.length + 2 - i) := by omega
          rw [hsteps, runFl_add, runFl_runE arr false i e _ (Nat.le_of_lt hlt)]
          exact runFl_finished rfl _
        · simp only [ht, Bool.false_eq_true, if_false]
          rw [runFl_add, ih (i + 1) _ _ (by omega)]
          exact runFl_finished rfl _
      · simp only [hh]
        rw [runFl_add, ih (i + 1) _ _ (by omega)]
        exact runFl_finished rfl _
      · simp only [hh]
        have hsteps : 2 * (arr.length - (i + 1)) + arr.length + 2 + 1 =
            (i + 1) + (2 * (arr.length - (i + 1)) + arr.length + 2 - i) := by omega
        rw [hsteps, runFl_add,
          runFl_runE arr false i (if truthy e then e else hookRunError) _ (Nat.le_of_lt hlt)]
        exact runFl_finished rfl _
    · have hnil : arr.length - i = 0 := by omega
      rw [hnil]
      have hB : 2 * 0 + arr.length + 2 = (arr.length + 1) + 1 := by omega
      rw [hB, runFl]
      show runFl (arr.length + 1) (stepFl _) = _
      unfold stepFl
      simp only [dif_neg hlt]
      rw [runNextHook, dif_neg hlt]
      exact runFl_finished rfl _

/-- Mid-flight registrations never touch the in-flight trigger state:
the `fl` component after any interleaving equals pure iteration of the
cursor steps. -/
theorem runSched_fl : ∀ (sched : List (Option Reg)) (s : TState),
    (runSched sched s).fl = runFl (sched.countP (fun o => o.isNone)) s.fl := by
  intro sched
  induction sched with
  | nil => intro s; rfl
  | cons o rest ih =>
    intro s
    cases o with
    | none =>
      rw [runSched, ih]
      have : (none :: rest : List (Option Reg)).countP (fun o => o.isNone) =
          rest.countP (fun o => o.isNone) + 1 := by
        simp [List.countP_cons]
      rw [this]
      have hcomm : rest.countP (fun o => o.isNone) + 1 =
          1 + rest.countP (fun o => o.isNone) := by omega
      rw [hcomm, runFl_add]
      rfl
    | some r =>
      rw [runSched, ih]
      have : (some r :: rest : List (Option Reg)).countP (fun o => o.isNone) =
          rest.countP (fun o => o.isNone) := by
        simp [List.countP_cons]
      rw [this]

/-- Iterating the machine from `startTrigger` long enough reaches the
finished state whose outcome and trace are exactly `_trigger`'s. -/
theorem runFl_startTrigger (self : CrispHooks) (name : String) (twe : Option JSVal) :
    ∀ N, 3 * (startTrigger self name twe).fl.snapshot.length + 4 ≤ N →
      (runFl N (startTrigger self name twe).fl).mode =
        FwdMode.finished (_trigger self name twe).out ∧
      (runFl N (startTrigger self name twe).fl).trace = (_trigger self name twe).trace := by
  intro N hN
  unfold startTrigger _trigger at *
  cases hget : getHookSet self name with
  | none =>
    simp only [hget] at hN ⊢
    rw [runFl_finished rfl N]
    exact ⟨rfl, rfl⟩
  | some ns =>
    simp only [hget] at hN ⊢
    by_cases htw : truthyOpt twe = true
    · simp only [htw, if_true] at hN ⊢
      have hsplit : N = ((hooksOf (_sortHooks self name) name).length + 1) +
          (N - ((hooksOf (_sortHooks self name) name).length + 1)) := by omega
      rw [hsplit, runFl_add, runFl_runE (hooksOf (_sortHooks self name) name) true
        (hooksOf (_sortHooks self name) name).length (twe.getD jsNewError) []
        (Nat.le_refl _)]
      rw [runFl_finished rfl]
      exact ⟨rfl, rfl⟩
    · simp only [htw, Bool.false_eq_true, if_false] at hN ⊢
      have hsplit : N = (2 * ((hooksOf (_sortHooks self name) name).length - 0) +
            (hooksOf (_sortHooks self name) name).length + 2) +
          (N - (2 * ((hooksOf (_sortHooks self name) name).length - 0) +
            (hooksOf (_sortHooks self name) name).length + 2)) := by omega
      rw [hsplit, runFl_add, runFl_runF (hooksOf (_sortHooks self name) name)
        (hooksOf (_sortHooks self name) name).length 0 [] [] (by omega)]
      rw [runFl_finished rfl]
      exact ⟨rfl, rfl⟩

/-- C8: a triggering operation works on the snapshot copy taken at
invocation start (`hooks.slice(0)`): for any interleaving of mid-flight
registrations with the trigger's own cursor steps (any schedule with
enough cursor steps to finish), the in-flight trigger reaches exactly the
outcome and trace of the undisturbed `_trigger` — registrations while the
trigger is in flight never change which handlers it executes or the
results it reports. -/
theorem c8_snapshot_isolation (self : CrispHooks) (name : String) (twe : Option JSVal)
    (sched : List (Option Reg))
    (hsteps : 3 * (startTrigger self name twe).fl.snapshot.length + 4 ≤
      sched.countP (fun o => o.isNone)) :
    (runSched sched (startTrigger self name twe)).fl.mode =
      FwdMode.finished (_trigger self name twe).out ∧
    (runSched sched (startTrigger self name twe)).fl.trace =
      (_trigger self name twe).trace := by
  rw [runSched_fl]
  exact runFl_startTrigger self name twe _ hsteps

theorem c8_snapshot_isolation_witness :
    (runSched w8sched (startTrigger w8self "x" none)).fl.mode =
      FwdMode.finished (_trigger w8self "x" none).out ∧
    (runSched w8sched (startTrigger w8self "x" none)).fl.trace =
      (_trigger w8self "x" none).trace :=
  c8_snapshot_isolation w8self "x" none w8sched (by decide)

end Crisphooks
